import Mathlib

/-!
Verification of the Chubut health-ministry bulletin downloader
(`src/main.py`).  The script scrapes a page of epidemiological bulletins,
extracts (name, link) pairs from table rows, dispatches each link to a
download strategy chosen by host substring, and records one outcome per
item to a CSV report.

The embedding models Python text as lists of characters, the DOM already
parsed (BeautifulSoup is an external collaborator: a table row is the list
of its td cells, a cell carries its stripped text and its anchor elements
in document order), the network and the Google Drive transfer as explicit
inputs, and side effects (prints, directory creation, transfers, CSV
writes, sleeps) as an explicit trace.
-/

namespace Chubut

/-- Python text, modelled as a list of characters. -/
abbrev Str := List Char

/-- Leftmost occurrence splitter behind Python str.split: returns the part
before the first occurrence of the separator and the part after it, or
none when the separator does not occur.  An empty separator is rejected
(Python raises ValueError there; the program only splits on "/d/" and "/"). -/
def splitFirst : Str → Str → Option (Str × Str)
  | _, [] => none
  | [], _ :: _ => none
  | s0 :: ss, c :: rest =>
    if (s0 :: ss).isPrefixOf (c :: rest) then
      some ([], (c :: rest).drop (s0 :: ss).length)
    else
      match splitFirst (s0 :: ss) rest with
      | some (pre, post) => some (c :: pre, post)
      | none => none

/-- Fueled worker for pySplit; the fuel only has to dominate the number of
separator occurrences, which is at most the length of the input. -/
def pySplitAux (sep : Str) : Nat → Str → List Str
  | 0, l => [l]
  | Nat.succ fuel, l =>
    match splitFirst sep l with
    | none => [l]
    | some (pre, post) => pre :: pySplitAux sep fuel post

/-- Embedding of Python str.split with a non-empty separator: the list of
fragments between consecutive non-overlapping leftmost occurrences of the
separator, empty fragments included. -/
def pySplit (sep l : Str) : List Str :=
  pySplitAux sep l.length l

/-- An anchor element inside a table cell; href is none when the attribute
is absent. -/
structure Anchor where
  href : Option Str
deriving DecidableEq

/-- A td element as the scraper sees it: its stripped text and its anchor
descendants in document order. -/
structure Cell where
  text : String
  anchors : List Anchor
deriving DecidableEq

/-- The parsed page as the scraper walks it: the list, in document order,
of the td-cell lists of every tr element. -/
abbrev HtmlDoc := List (List Cell)

/-- The tabular file written by pandas to_csv with index=False. -/
structure CsvFile where
  header : List String
  rows : List (List String)
deriving DecidableEq

/-- Observable side effects of a run, in order of occurrence. -/
inductive Effect where
  | print (msg : String)
  | makeDirs (folder : String)
  | transfer (url : Str) (output : String)
  | writeCsv (path : String) (file : CsvFile)
  | sleep (seconds : Nat)
deriving DecidableEq

/-- Result of the page fetch: requests.get plus raise_for_status either
raises a RequestException (carrying its message) or hands the parsed body
to the scraper. -/
inductive FetchResult where
  | error (msg : String)
  | ok (doc : HtmlDoc)

/-- Outcome of one gdown.download call: it either completes or raises. -/
inductive Transfer where
  | completes
  | raises (msg : String)
deriving DecidableEq

/-- The download strategies the factory can construct. -/
inductive Strategy where
  | googleDrive
deriving DecidableEq

abbrev StrategyMap := List (Str × Strategy)

-- ---------------- PATRON OBSERVADOR ----------------

/-- One row of the logger: the dict with keys Nombre and Estado. -/
structure ResultRecord where
  nombre : String
  estado : String
deriving DecidableEq

/-- DownloadLogger: accumulates one record per update call. -/
structure DownloadLogger where
  results : List ResultRecord
deriving DecidableEq

/-- DownloadLogger.update appends one record. -/
def DownloadLogger.update (lg : DownloadLogger) (name status : String) : DownloadLogger :=
  ⟨lg.results ++ [⟨name, status⟩]⟩

/-- The DataFrame built by save_to_csv.  pandas derives the columns of a
frame built from a list of dicts from the keys of those dicts, in order of
first appearance; every record here carries exactly the keys Nombre and
Estado, so the frame has those two columns when at least one record exists
and no columns at all for an empty record list. -/
def DownloadLogger.toCsv (lg : DownloadLogger) : CsvFile :=
  { header := if lg.results.isEmpty then [] else ["Nombre", "Estado"],
    rows := lg.results.map (fun r => [r.nombre, r.estado]) }

/-- DownloadLogger.save_to_csv writes the frame and reports the path. -/
def DownloadLogger.save_to_csv (lg : DownloadLogger) (folder : String) : List Effect :=
  [Effect.writeCsv (folder ++ "/descargas_resultados.csv") lg.toCsv,
   Effect.print ("Resultados guardados en " ++ folder ++ "/descargas_resultados.csv")]

-- ---------------- PATRON ESTRATEGIA ----------------

/-- The separator "/d/" of the first split in GoogleDriveDownloader. -/
def dSep : Str := ['/', 'd', '/']

/-- The separator "/" of the second split. -/
def slashSep : Str := ['/']

/-- The identifier extraction line of GoogleDriveDownloader.download:
link.split("/d/")[1].split("/")[0].  none models the IndexError raised
when "/d/" does not occur in the link. -/
def extract_file_id (link : Str) : Option Str :=
  match (pySplit dSep link)[1]? with
  | none => none
  | some seg => (pySplit slashSep seg)[0]?

/-- Body of the try block of GoogleDriveDownloader.download, before the
except handler: its effects and either the returned status or the message
of the exception that escaped. -/
def driveTryBody (name : String) (link : Str) (folder : String) (t : Transfer) :
    List Effect × Except String String :=
  match extract_file_id link with
  | none => ([], Except.error "list index out of range")
  | some file_id =>
    let download_url : Str := ("https://drive.google.com/uc?id=").toList ++ file_id
    let output := folder ++ "/" ++ name ++ ".pdf"
    match t with
    | Transfer.completes =>
        ([Effect.print ("Inicio de la descarga: " ++ name),
          Effect.transfer download_url output,
          Effect.print ("Fin de la descarga: " ++ output)], Except.ok "Exitoso")
    | Transfer.raises msg =>
        ([Effect.print ("Inicio de la descarga: " ++ name),
          Effect.transfer download_url output], Except.error msg)

/-- GoogleDriveDownloader.download: the try body wrapped in the except
handler that prints a diagnostic and returns "Fallido". -/
def GoogleDriveDownloader.download (name : String) (link : Str) (folder : String)
    (t : Transfer) : List Effect × String :=
  match driveTryBody name link folder t with
  | (effs, Except.ok s) => (effs, s)
  | (effs, Except.error e) =>
      (effs ++ [Effect.print ("Error al descargar " ++ name ++ ": " ++ e)], "Fallido")

-- ---------------- PATRON FACTORIA SINGLETON ----------------

/-- The Python membership test source in link: some contiguous run of link
equals source. -/
def hasSubstr (pat l : Str) : Bool :=
  (List.range (l.length + 1)).any (fun i => pat.isPrefixOf (l.drop i))

/-- The strategy dict installed by DownloadStrategyFactory on first
construction. -/
def initialStrategies : StrategyMap :=
  [(("drive.google.com").toList, Strategy.googleDrive)]

/-- DownloadStrategyFactory.get_strategy: scan the registered host
substrings in registration order, first match wins, none otherwise. -/
def DownloadStrategyFactory.get_strategy (strategies : StrategyMap) (link : Str) :
    Option Strategy :=
  (strategies.find? (fun p => hasSubstr p.1 link)).map Prod.snd

/-- DownloadStrategyFactory constructor: on the first call the class
attribute is still empty and the instance with its strategy dict is
installed; later calls return the stored instance unchanged.  The pair is
(instance handed to the caller, class attribute after the call). -/
def factoryNew (stored : Option StrategyMap) : StrategyMap × Option StrategyMap :=
  match stored with
  | none => (initialStrategies, some initialStrategies)
  | some m => (m, some m)

/-- n successive constructor calls threaded through the class attribute:
the instances handed out, and the final class attribute. -/
def runFactoryNews : Nat → Option StrategyMap → List StrategyMap × Option StrategyMap
  | 0, stored => ([], stored)
  | Nat.succ n, stored =>
      let r := factoryNew stored
      let rest := runFactoryNews n r.2
      (r.1 :: rest.1, rest.2)

-- ---------------- SCRAPER Y DESCARGA ----------------

/-- Loop body of get_pdf_links for one tr: rows with more than two cells
contribute the first-cell text and the href of the first anchor of the
third cell that carries one; every other row leaves the accumulator
alone. -/
def scrapeStep (links : List (String × Str)) (tds : List Cell) : List (String × Str) :=
  if h : 2 < tds.length then
    let name := (tds.get ⟨0, by omega⟩).text
    match (tds.get ⟨2, h⟩).anchors.findSome? Anchor.href with
    | some href => links ++ [(name, href)]
    | none => links
  else
    links

/-- The contribution of one tr to the result of get_pdf_links, as an
optional entry: some entry exactly when the row has more than two cells
and its third cell holds an anchor with an href. -/
def rowEntry (tds : List Cell) : Option (String × Str) :=
  if h : 2 < tds.length then
    ((tds.get ⟨2, h⟩).anchors.findSome? Anchor.href).map
      (fun href => ((tds.get ⟨0, by omega⟩).text, href))
  else none

/-- get_pdf_links: on a RequestException the failure is printed and the
empty list returned; otherwise the parsed rows are scanned in document
order. -/
def get_pdf_links (fetch : FetchResult) : List Effect × List (String × Str) :=
  match fetch with
  | FetchResult.error msg =>
      ([Effect.print ("Error al acceder a la página: " ++ msg)], [])
  | FetchResult.ok doc => ([], doc.foldl scrapeStep [])

/-- One iteration of the download_pdfs loop: resolve the strategy from the
factory instance, default the status to "No soportado", download when a
strategy exists, record, sleep. -/
def runItem (env : String × Str → Transfer) (folder : String) (delay : Nat)
    (acc : List Effect × DownloadLogger) (nl : String × Str) :
    List Effect × DownloadLogger :=
  let r : List Effect × String :=
    match DownloadStrategyFactory.get_strategy initialStrategies nl.2 with
    | none => ([], "No soportado")
    | some Strategy.googleDrive =>
        GoogleDriveDownloader.download nl.1 nl.2 folder (env nl)
  (acc.1 ++ r.1 ++ [Effect.sleep delay], acc.2.update nl.1 r.2)

/-- download_pdfs: create the folder, process every link in order with a
fresh logger, then flush the logger.  env supplies the outcome of each
gdown transfer. -/
def download_pdfs (env : String × Str → Transfer) (links : List (String × Str))
    (folder : String) (delay : Nat) : List Effect × DownloadLogger :=
  let start : List Effect × DownloadLogger :=
    ([Effect.makeDirs folder], DownloadLogger.mk [])
  let r := links.foldl (runItem env folder delay) start
  (r.1 ++ r.2.save_to_csv folder, r.2)

/-- The fixed page URL of main. -/
def pageUrl : String := "https://secretariadesalud.chubut.gov.ar/epidemiological_releases"

/-- main: fetch and scrape once; with no links print the message and stop,
otherwise download everything with the default folder and delay. -/
def mainRun (fetch : FetchResult) (env : String × Str → Transfer) : List Effect :=
  let r := get_pdf_links fetch
  if r.2.isEmpty then
    r.1 ++ [Effect.print "No se encontraron enlaces de descarga."]
  else
    r.1 ++ (download_pdfs env r.2 "pdfs" 2).1 ++ [Effect.print "Descarga completada."]

-- ---------------- SPEC-SIDE DEFINITIONS ----------------

/-- Spec side, from the spec words: the targets of the hyperlinks of a
cell, a hyperlink being an anchor carrying a target attribute. -/
def Cell.hyperlinkTargets (c : Cell) : List Str :=
  c.anchors.filterMap Anchor.href

/-- Placeholder cell for total indexing on the spec side; never reached on
qualifying rows. -/
def emptyCell : Cell := ⟨"", []⟩

/-- Spec side: a row qualifies when it has more than two td children and
its third td contains a hyperlink. -/
def rowQualifies (tds : List Cell) : Bool :=
  decide (2 < tds.length) && !(tds.getD 2 emptyCell).hyperlinkTargets.isEmpty

/-- Spec side: the entry of a qualifying row, name from the text of the
first cell, url from the target of the first hyperlink of the third. -/
def specEntryOf (tds : List Cell) : String × Str :=
  ((tds.getD 0 emptyCell).text, (tds.getD 2 emptyCell).hyperlinkTargets.headD [])

/-- Spec side rendering of the extraction contract: one entry per
qualifying row, zero per other row, document order. -/
def extractLinks_spec (doc : HtmlDoc) : List (String × Str) :=
  (doc.filter rowQualifies).map specEntryOf

-- ---------------- LEMMAS AND CLAIM THEOREMS ----------------

theorem splitFirst_nil (sep : Str) : splitFirst sep [] = none := by
  cases sep <;> rfl

theorem splitFirst_post_length {sep l pre post : Str}
    (h : splitFirst sep l = some (pre, post)) : post.length < l.length := by
  induction l generalizing pre post with
  | nil => rw [splitFirst_nil] at h; exact absurd h (by simp)
  | cons c rest ih =>
    cases sep with
    | nil => exact absurd h (by simp [splitFirst])
    | cons s0 ss =>
      rw [splitFirst] at h
      by_cases hp : (s0 :: ss).isPrefixOf (c :: rest)
      · rw [if_pos hp] at h
        simp only [Option.some.injEq, Prod.mk.injEq] at h
        obtain ⟨hpre, hpost⟩ := h
        subst hpost
        simp only [List.length_drop, List.length_cons]
        omega
      · rw [if_neg hp] at h
        cases hrec : splitFirst (s0 :: ss) rest with
        | none => rw [hrec] at h; exact absurd h (by simp)
        | some pr =>
          obtain ⟨pre1, post1⟩ := pr
          rw [hrec] at h
          simp only [Option.some.injEq, Prod.mk.injEq] at h
          obtain ⟨hpre, hpost⟩ := h
          subst hpost
          have hlt := ih hrec
          simp only [List.length_cons]
          omega

theorem splitFirst_decomp {sep l pre post : Str}
    (h : splitFirst sep l = some (pre, post)) : l = pre ++ sep ++ post := by
  induction l generalizing pre post with
  | nil => rw [splitFirst_nil] at h; exact absurd h (by simp)
  | cons c rest ih =>
    cases sep with
    | nil => exact absurd h (by simp [splitFirst])
    | cons s0 ss =>
      rw [splitFirst] at h
      by_cases hp : (s0 :: ss).isPrefixOf (c :: rest)
      · rw [if_pos hp] at h
        simp only [Option.some.injEq, Prod.mk.injEq] at h
        obtain ⟨hpre, hpost⟩ := h
        subst hpre
        subst hpost
        obtain ⟨t, ht⟩ := List.isPrefixOf_iff_prefix.mp hp
        rw [← ht]
        simp [List.drop_left]
      · rw [if_neg hp] at h
        cases hrec : splitFirst (s0 :: ss) rest with
        | none => rw [hrec] at h; exact absurd h (by simp)
        | some pr =>
          obtain ⟨pre1, post1⟩ := pr
          rw [hrec] at h
          simp only [Option.some.injEq, Prod.mk.injEq] at h
          obtain ⟨hpre, hpost⟩ := h
          subst hpost
          rw [← hpre]
          simpa using ih hrec

/-- If the separator first occurs at index i (it is a prefix of the drop at
i and at no earlier index), splitFirst cuts exactly there. -/
theorem splitFirst_of_firstOcc {sep : Str} (hsep : sep ≠ []) :
    ∀ (l : Str) (i : Nat),
      sep.isPrefixOf (l.drop i) = true →
      (∀ j, j < i → sep.isPrefixOf (l.drop j) = false) →
      splitFirst sep l = some (l.take i, l.drop (i + sep.length)) := by
  intro l
  induction l with
  | nil =>
    intro i hpre _
    cases sep with
    | nil => exact absurd rfl hsep
    | cons s0 ss => simp at hpre
  | cons c rest ih =>
    intro i hpre hmin
    cases sep with
    | nil => exact absurd rfl hsep
    | cons s0 ss =>
      cases i with
      | zero =>
        simp only [List.drop_zero] at hpre
        rw [splitFirst, if_pos hpre]
        simp
      | succ i' =>
        have h0 : (s0 :: ss).isPrefixOf ((c :: rest).drop 0) = false :=
          hmin 0 (Nat.succ_pos i')
        simp only [List.drop_zero] at h0
        rw [splitFirst, if_neg (by simp [h0])]
        have hpre' : (s0 :: ss).isPrefixOf (rest.drop i') = true := by
          simpa using hpre
        have hmin' : ∀ j, j < i' → (s0 :: ss).isPrefixOf (rest.drop j) = false := by
          intro j hj
          have := hmin (j + 1) (by omega)
          simpa using this
        rw [ih i' hpre' hmin']
        have harith : i' + 1 + (s0 :: ss).length = (i' + (s0 :: ss).length) + 1 := by omega
        simp only [List.take_succ_cons, List.length_cons, Option.some.injEq, Prod.mk.injEq,
          List.cons.injEq, true_and]
        rw [show i' + 1 + (ss.length + 1) = (i' + (ss.length + 1)) + 1 from by omega,
          List.drop_succ_cons]

theorem pySplitAux_stable (sep : Str) :
    ∀ (fuel fuel' : Nat) (l : Str), l.length ≤ fuel → l.length ≤ fuel' →
      pySplitAux sep fuel l = pySplitAux sep fuel' l := by
  intro fuel
  induction fuel with
  | zero =>
    intro fuel' l hf hf'
    have : l = [] := List.length_eq_zero.mp (Nat.le_zero.mp hf)
    subst this
    cases fuel' with
    | zero => rfl
    | succ f' => simp [pySplitAux, splitFirst_nil]
  | succ f ih =>
    intro fuel' l hf hf'
    cases fuel' with
    | zero =>
      have : l = [] := List.length_eq_zero.mp (Nat.le_zero.mp hf')
      subst this
      simp [pySplitAux, splitFirst_nil]
    | succ f' =>
      simp only [pySplitAux]
      cases hsf : splitFirst sep l with
      | none => rfl
      | some pr =>
        obtain ⟨pre, post⟩ := pr
        have hlt := splitFirst_post_length hsf
        have h1 : post.length ≤ f := by omega
        have h2 : post.length ≤ f' := by omega
        show pre :: pySplitAux sep f post = pre :: pySplitAux sep f' post
        rw [ih f' post h1 h2]

theorem pySplit_of_none {sep l : Str} (h : splitFirst sep l = none) :
    pySplit sep l = [l] := by
  unfold pySplit
  cases hl : l.length with
  | zero => rfl
  | succ k => simp [pySplitAux, h]

theorem pySplit_of_some {sep l pre post : Str} (h : splitFirst sep l = some (pre, post)) :
    pySplit sep l = pre :: pySplit sep post := by
  unfold pySplit
  have hlt := splitFirst_post_length h
  cases hl : l.length with
  | zero =>
    have : l = [] := List.length_eq_zero.mp hl
    subst this
    rw [splitFirst_nil] at h
    exact absurd h (by simp)
  | succ k =>
    simp only [pySplitAux, h]
    rw [pySplitAux_stable sep k post.length post (by omega) (Nat.le.refl)]

theorem pySplit_head_isSome (sep l : Str) : (pySplit sep l).head?.isSome = true := by
  cases hsf : splitFirst sep l with
  | none => rw [pySplit_of_none hsf]; rfl
  | some pr => obtain ⟨pre, post⟩ := pr; rw [pySplit_of_some hsf]; rfl

/-- A single-character split finds no occurrence exactly when the character
is absent, in which case the whole string survives the takeWhile below. -/
theorem splitFirst_single_none {x : Char} {l : Str}
    (h : splitFirst [x] l = none) : l.takeWhile (fun c => c != x) = l := by
  induction l with
  | nil => rfl
  | cons c rest ih =>
    rw [splitFirst] at h
    by_cases hp : [x].isPrefixOf (c :: rest)
    · rw [if_pos hp] at h
      exact absurd h (by simp)
    · rw [if_neg hp] at h
      have hx : ¬ x = c := by
        intro hxc
        subst hxc
        exact hp (by simp [List.isPrefixOf])
      have hrec : splitFirst [x] rest = none := by
        cases hrec : splitFirst [x] rest with
        | none => rfl
        | some pr =>
          obtain ⟨pre1, post1⟩ := pr
          rw [hrec] at h
          exact absurd h (by simp)
      rw [List.takeWhile_cons]
      have : (c != x) = true := by
        simp [bne]
        intro hcx
        exact hx hcx.symm
      rw [this]
      simp [ih hrec]

/-- The fragment before a single-character split is the takeWhile up to
that character. -/
theorem splitFirst_single_some {x : Char} {l pre post : Str}
    (h : splitFirst [x] l = some (pre, post)) :
    pre = l.takeWhile (fun c => c != x) := by
  induction l generalizing pre post with
  | nil => rw [splitFirst_nil] at h; exact absurd h (by simp)
  | cons c rest ih =>
    rw [splitFirst] at h
    by_cases hp : [x].isPrefixOf (c :: rest)
    · rw [if_pos hp] at h
      simp only [Option.some.injEq, Prod.mk.injEq] at h
      obtain ⟨hpre, hpost⟩ := h
      subst hpre
      have hx : x = c := by
        have := List.isPrefixOf_iff_prefix.mp hp
        obtain ⟨t, ht⟩ := this
        simpa using congrArg (fun u => u.head?) ht
      subst hx
      simp [List.takeWhile_cons]
    · rw [if_neg hp] at h
      have hx : ¬ x = c := by
        intro hxc
        subst hxc
        exact hp (by simp [List.isPrefixOf])
      cases hrec : splitFirst [x] rest with
      | none => rw [hrec] at h; exact absurd h (by simp)
      | some pr =>
        obtain ⟨pre1, post1⟩ := pr
        rw [hrec] at h
        simp only [Option.some.injEq, Prod.mk.injEq] at h
        obtain ⟨hpre, hpost⟩ := h
        subst hpre
        rw [List.takeWhile_cons]
        have : (c != x) = true := by
          simp [bne]
          intro hcx
          exact hx hcx.symm
        rw [this]
        simp [ih hrec]

/-- takeWhile ignores everything from the first failing element on. -/
theorem takeWhile_append_of_false {p : Char → Bool} {x : Char} (hx : p x = false)
    (l1 l2 : Str) : (l1 ++ x :: l2).takeWhile p = l1.takeWhile p := by
  induction l1 with
  | nil => simp [List.takeWhile_cons, hx]
  | cons a l1' ih =>
    simp only [List.cons_append, List.takeWhile_cons]
    cases hpa : p a with
    | false => rfl
    | true => simp [ih]


theorem pySplit_slash_head (s : Str) :
    (pySplit slashSep s)[0]? = some (s.takeWhile (fun c => c != '/')) := by
  cases hsf : splitFirst slashSep s with
  | none =>
    rw [pySplit_of_none hsf]
    rw [show slashSep = ['/'] from rfl] at hsf
    simp [splitFirst_single_none hsf]
  | some pr =>
    obtain ⟨pre, post⟩ := pr
    rw [pySplit_of_some hsf]
    rw [show slashSep = ['/'] from rfl] at hsf
    simp [splitFirst_single_some hsf]

/-- C2: for every URL in which "/d/" occurs, with i the index of its first
occurrence, the Google Drive strategy derives as file identifier exactly
the portion of the URL between that occurrence and the next "/" after it,
or to the end of the string when no "/" follows. -/
theorem drive_file_id_is_segment_after_dSep (link : Str) (i : Nat)
    (hpre : dSep.isPrefixOf (link.drop i) = true)
    (hmin : ∀ j, j < i → dSep.isPrefixOf (link.drop j) = false) :
    extract_file_id link = some ((link.drop (i + 3)).takeWhile (fun c => c != '/')) := by
  have hsep : dSep ≠ [] := by simp [dSep]
  have hsf : splitFirst dSep link = some (link.take i, link.drop (i + dSep.length)) :=
    splitFirst_of_firstOcc hsep link i hpre hmin
  have hlen : dSep.length = 3 := rfl
  rw [hlen] at hsf
  rw [extract_file_id, pySplit_of_some hsf]
  simp only [List.getElem?_cons_succ]
  cases hsf2 : splitFirst dSep (link.drop (i + 3)) with
  | none =>
    rw [pySplit_of_none hsf2]
    simp only [List.getElem?_cons_zero, pySplit_slash_head]
  | some pr =>
    obtain ⟨pre2, post2⟩ := pr
    rw [pySplit_of_some hsf2]
    simp only [List.getElem?_cons_zero, pySplit_slash_head]
    have hdec := splitFirst_decomp hsf2
    have hsame : (link.drop (i + 3)).takeWhile (fun c => c != '/')
        = pre2.takeWhile (fun c => c != '/') := by
      rw [hdec, show (dSep : Str) = '/' :: ['d', '/'] from rfl]
      rw [List.append_assoc, List.cons_append]
      exact takeWhile_append_of_false (by decide) pre2 (['d', '/'] ++ post2)
    rw [hsame]

/-- Witness for C2 at a concrete link: in a/d/XY/z the first occurrence of
"/d/" sits at index 1 and the derived identifier is XY. -/
theorem drive_file_id_is_segment_after_dSep_witness :
    extract_file_id ("a/d/XY/z").toList = some (("XY").toList) := by
  have h := drive_file_id_is_segment_after_dSep (("a/d/XY/z").toList) 1
    (by decide) (by decide)
  rw [h]
  decide

/-- C3: GoogleDriveDownloader.download never lets an exception escape: the
outcome is always the string Exitoso or the string Fallido; whenever the
try body ends in an exception the call returns Fallido with the
diagnostic printed after the effects of the body; and when the identifier
extraction succeeds and the transfer completes the outcome is Exitoso. -/
theorem drive_download_catches_all_failures (name : String) (link : Str)
    (folder : String) (t : Transfer) :
    ((GoogleDriveDownloader.download name link folder t).2 = "Exitoso" ∨
      (GoogleDriveDownloader.download name link folder t).2 = "Fallido") ∧
    (∀ effs e, driveTryBody name link folder t = (effs, Except.error e) →
      GoogleDriveDownloader.download name link folder t
        = (effs ++ [Effect.print ("Error al descargar " ++ name ++ ": " ++ e)],
           "Fallido")) ∧
    (t = Transfer.completes → (extract_file_id link).isSome = true →
      (GoogleDriveDownloader.download name link folder t).2 = "Exitoso") := by
  refine ⟨?_, ?_, ?_⟩
  · cases hid : extract_file_id link with
    | none =>
      right
      simp [GoogleDriveDownloader.download, driveTryBody, hid]
    | some fid =>
      cases t with
      | completes =>
        left
        simp [GoogleDriveDownloader.download, driveTryBody, hid]
      | raises m =>
        right
        simp [GoogleDriveDownloader.download, driveTryBody, hid]
  · intro effs e h
    simp [GoogleDriveDownloader.download, h]
  · intro ht hsome
    subst ht
    cases hid : extract_file_id link with
    | none => rw [hid] at hsome; simp at hsome
    | some fid => simp [GoogleDriveDownloader.download, driveTryBody, hid]

/-- Witness for C3 at concrete inputs: a well-formed link with a
completing transfer yields Exitoso, and the theorem also pins the Fallido
outcome when the try body raised. -/
theorem drive_download_catches_all_failures_witness :
    (GoogleDriveDownloader.download "a" (("x/d/ID/y").toList) "pdfs"
      Transfer.completes).2 = "Exitoso" := by
  have h := drive_download_catches_all_failures "a" (("x/d/ID/y").toList) "pdfs"
    Transfer.completes
  exact h.2.2 rfl (by decide)

/-- C4: a link in which no registered host substring occurs resolves to no
strategy, and the per-item loop then records the outcome No soportado for
it without any download effect, only the fixed sleep. -/
theorem unsupported_link_records_no_soportado (name : String) (link : Str)
    (h : ∀ p ∈ initialStrategies, hasSubstr p.1 link = false) :
    DownloadStrategyFactory.get_strategy initialStrategies link = none ∧
    (∀ env folder delay effs lg,
      runItem env folder delay (effs, lg) (name, link)
        = (effs ++ [Effect.sleep delay], lg.update name "No soportado")) := by
  have hnone : initialStrategies.find? (fun p => hasSubstr p.1 link) = none := by
    rw [List.find?_eq_none]
    intro p hp
    simp [h p hp]
  refine ⟨?_, ?_⟩
  · simp [DownloadStrategyFactory.get_strategy, hnone]
  · intro env folder delay effs lg
    simp [runItem, DownloadStrategyFactory.get_strategy, hnone]

/-- Witness for C4: a plain non-Drive link is resolved to none and
recorded as No soportado with no effect but the sleep. -/
theorem unsupported_link_records_no_soportado_witness :
    DownloadStrategyFactory.get_strategy initialStrategies
        (("https://example.com/file.pdf").toList) = none ∧
    runItem (fun _ => Transfer.completes) "pdfs" 2 ([], DownloadLogger.mk [])
        ("x", ("https://example.com/file.pdf").toList)
      = ([Effect.sleep 2], (DownloadLogger.mk []).update "x" "No soportado") := by
  have h := unsupported_link_records_no_soportado "x"
    (("https://example.com/file.pdf").toList) (by decide)
  exact ⟨h.1, h.2 (fun _ => Transfer.completes) "pdfs" 2 [] (DownloadLogger.mk [])⟩

/-- C5: when the page fetch raises, get_pdf_links prints the failure and
returns the empty sequence instead of propagating the exception. -/
theorem page_fetch_error_yields_empty (msg : String) :
    get_pdf_links (FetchResult.error msg)
      = ([Effect.print ("Error al acceder a la página: " ++ msg)], []) := rfl

/-- C9: any link that contains drive.google.com as a substring anywhere is
dispatched to the Google Drive strategy; no host parsing is involved. -/
theorem substring_match_dispatches_drive (link : Str)
    (h : hasSubstr (("drive.google.com").toList) link = true) :
    DownloadStrategyFactory.get_strategy initialStrategies link
      = some Strategy.googleDrive := by
  rw [DownloadStrategyFactory.get_strategy,
    show initialStrategies = [(("drive.google.com").toList, Strategy.googleDrive)] from rfl]
  rw [List.find?_cons_of_pos _ (by simpa using h)]
  rfl

/-- Witness for C9: a URL whose host is not Google Drive but which
mentions the substring in its query string is still dispatched to the
Drive strategy. -/
theorem substring_match_dispatches_drive_witness :
    DownloadStrategyFactory.get_strategy initialStrategies
        (("https://evil.example/page?fake=drive.google.com").toList)
      = some Strategy.googleDrive :=
  substring_match_dispatches_drive
    (("https://evil.example/page?fake=drive.google.com").toList) (by decide)

theorem logger_foldl_results (recs : List (String × String)) :
    ∀ init : List ResultRecord,
      (recs.foldl (fun l p => DownloadLogger.update l p.1 p.2) ⟨init⟩).results
        = init ++ recs.map (fun p => ⟨p.1, p.2⟩) := by
  induction recs with
  | nil => intro init; simp
  | cons r recs ih =>
    intro init
    rw [List.foldl_cons]
    show (recs.foldl (fun l p => DownloadLogger.update l p.1 p.2)
      ⟨init ++ [{ nombre := r.1, estado := r.2 }]⟩).results = _
    have h2 := ih (init ++ [({ nombre := r.1, estado := r.2 } : ResultRecord)])
    rw [h2]
    simp

/-- Counterexample to C6 as stated: after zero record calls the flushed
table does not carry the two declared columns, because pandas derives the
columns from the record keys and an empty record list yields a frame with
no columns at all. -/
theorem logger_flush_zero_records_lacks_columns :
    ¬ ((DownloadLogger.mk []).toCsv.header = ["Nombre", "Estado"]) := by
  decide

/-- C6 amended: flushing the logger after N record calls with N at least
one produces exactly N data rows, in call order, under the two columns
Nombre and Estado; after zero calls the flushed table has no columns and
no rows. -/
theorem logger_flush_rows_match_records (recs : List (String × String))
    (h : recs ≠ []) :
    ((recs.foldl (fun l p => DownloadLogger.update l p.1 p.2)
        (DownloadLogger.mk [])).toCsv.header = ["Nombre", "Estado"]) ∧
    ((recs.foldl (fun l p => DownloadLogger.update l p.1 p.2)
        (DownloadLogger.mk [])).toCsv.rows = recs.map (fun p => [p.1, p.2])) ∧
    ((recs.foldl (fun l p => DownloadLogger.update l p.1 p.2)
        (DownloadLogger.mk [])).toCsv.rows.length = recs.length) := by
  have hres := logger_foldl_results recs []
  refine ⟨?_, ?_, ?_⟩
  · rw [DownloadLogger.toCsv]
    simp only [hres, List.nil_append]
    rw [if_neg]
    simp [List.isEmpty_iff, h]
  · rw [DownloadLogger.toCsv]
    simp [hres]
  · rw [DownloadLogger.toCsv]
    simp [hres]

/-- Witness for the amended C6 at one concrete record. -/
theorem logger_flush_rows_match_records_witness :
    (([("a", "Exitoso")].foldl (fun l p => DownloadLogger.update l p.1 p.2)
        (DownloadLogger.mk [])).toCsv.header = ["Nombre", "Estado"]) ∧
    (([("a", "Exitoso")].foldl (fun l p => DownloadLogger.update l p.1 p.2)
        (DownloadLogger.mk [])).toCsv.rows = [["a", "Exitoso"]]) := by
  have h := logger_flush_rows_match_records [("a", "Exitoso")] (by decide)
  exact ⟨h.1, by simpa using h.2.1⟩

/-- C7: when extraction yields no entries, the run prints the no-links
message right after whatever the extractor printed and stops: no folder
creation, no transfer, no CSV write appears in the trace. -/
theorem empty_extraction_writes_nothing (fetch : FetchResult)
    (env : String × Str → Transfer) (h : (get_pdf_links fetch).2 = []) :
    mainRun fetch env
      = (get_pdf_links fetch).1
          ++ [Effect.print "No se encontraron enlaces de descarga."] ∧
    (∀ e ∈ mainRun fetch env,
      (∀ f, e ≠ Effect.makeDirs f) ∧ (∀ u o, e ≠ Effect.transfer u o) ∧
      (∀ p c, e ≠ Effect.writeCsv p c)) := by
  have h1 : mainRun fetch env
      = (get_pdf_links fetch).1
          ++ [Effect.print "No se encontraron enlaces de descarga."] := by
    rw [mainRun]
    simp [h]
  refine ⟨h1, ?_⟩
  intro e he
  rw [h1] at he
  cases fetch with
  | error msg =>
    simp only [get_pdf_links, List.cons_append, List.nil_append, List.mem_cons,
      List.not_mem_nil, or_false] at he
    rcases he with he | he <;> subst he <;>
      exact ⟨fun f hc => Effect.noConfusion hc, fun u o hc => Effect.noConfusion hc,
        fun p c hc => Effect.noConfusion hc⟩
  | ok doc =>
    have hdoc : doc.foldl scrapeStep [] = [] := h
    simp only [get_pdf_links, hdoc, List.nil_append, List.mem_singleton] at he
    subst he
    exact ⟨fun f hc => Effect.noConfusion hc, fun u o hc => Effect.noConfusion hc,
      fun p c hc => Effect.noConfusion hc⟩

/-- Witness for C7: a failed fetch gives an empty extraction, and the run
trace is exactly the two prints. -/
theorem empty_extraction_writes_nothing_witness :
    mainRun (FetchResult.error "HTTP 500") (fun _ => Transfer.completes)
      = [Effect.print "Error al acceder a la página: HTTP 500",
         Effect.print "No se encontraron enlaces de descarga."] := by
  have h := empty_extraction_writes_nothing (FetchResult.error "HTTP 500")
    (fun _ => Transfer.completes) (by rfl)
  rw [h.1]
  rfl

theorem runFactoryNews_from_some (m : StrategyMap) :
    ∀ n, runFactoryNews n (some m) = (List.replicate n m, some m) := by
  intro n
  induction n with
  | zero => rfl
  | succ k ih => simp [runFactoryNews, factoryNew, ih, List.replicate_succ]

/-- C8: starting from the empty class attribute, every one of n factory
constructions hands back the very same strategy mapping, the mapping is
installed exactly once (the class attribute afterwards is exactly that
mapping, or still empty when no construction happened), no operation ever
changes it, and therefore get_strategy answers identically on every
instance ever returned. -/
theorem factory_singleton_and_deterministic (n : Nat) :
    ((runFactoryNews n none).1 = List.replicate n initialStrategies) ∧
    ((runFactoryNews n none).2 = none ∨
      (runFactoryNews n none).2 = some initialStrategies) ∧
    (∀ m ∈ (runFactoryNews n none).1, ∀ link,
      DownloadStrategyFactory.get_strategy m link
        = DownloadStrategyFactory.get_strategy initialStrategies link) := by
  cases n with
  | zero =>
    refine ⟨rfl, Or.inl rfl, ?_⟩
    intro m hm
    simp [runFactoryNews] at hm
  | succ k =>
    have hrun : runFactoryNews (k + 1) none
        = (initialStrategies :: List.replicate k initialStrategies,
           some initialStrategies) := by
      simp [runFactoryNews, factoryNew, runFactoryNews_from_some]
    refine ⟨?_, Or.inr ?_, ?_⟩
    · rw [hrun, List.replicate_succ]
    · rw [hrun]
    · intro m hm link
      rw [hrun] at hm
      simp only [List.mem_cons] at hm
      rcases hm with hm | hm
      · rw [hm]
      · rw [List.eq_of_mem_replicate hm]

/-- Witness for C8: after two constructions both instances coincide with
the initial mapping and resolve a concrete link identically. -/
theorem factory_singleton_and_deterministic_witness :
    ((runFactoryNews 2 none).1 = List.replicate 2 initialStrategies) ∧
    (DownloadStrategyFactory.get_strategy ((runFactoryNews 2 none).1.headD [])
        (("https://drive.google.com/x").toList)
      = DownloadStrategyFactory.get_strategy initialStrategies
          (("https://drive.google.com/x").toList)) := by
  have h := factory_singleton_and_deterministic 2
  exact ⟨h.1, h.2.2 _ (by decide) _⟩

theorem findSome?_eq_head?_filterMap {α β : Type} (f : α → Option β) (l : List α) :
    l.findSome? f = (l.filterMap f).head? := by
  induction l with
  | nil => rfl
  | cons a as ih =>
    rw [List.findSome?_cons, List.filterMap_cons]
    cases f a with
    | none => simp only [ih]
    | some b => simp

theorem findSome?_all_none {α β : Type} {f : α → Option β} :
    ∀ {l : List α}, (∀ a ∈ l, f a = none) → l.findSome? f = none := by
  intro l
  induction l with
  | nil => intro _; rfl
  | cons a as ih =>
    intro h
    rw [List.findSome?_cons, h a (by simp)]
    exact ih (fun b hb => h b (by simp [hb]))

theorem findSome?_first_some {α β : Type} {f : α → Option β} (pre : List α) (a : α)
    (suf : List α) (u : β) (hpre : ∀ b ∈ pre, f b = none) (ha : f a = some u) :
    (pre ++ a :: suf).findSome? f = some u := by
  induction pre with
  | nil => rw [List.nil_append, List.findSome?_cons, ha]
  | cons b pre ih =>
    rw [List.cons_append, List.findSome?_cons, hpre b (by simp)]
    exact ih (fun c hc => hpre c (by simp [hc]))

theorem scrapeStep_eq (links : List (String × Str)) (tds : List Cell) :
    scrapeStep links tds = links ++ (rowEntry tds).toList := by
  by_cases h : 2 < tds.length
  · simp only [scrapeStep, rowEntry, dif_pos h]
    cases hfs : (tds.get ⟨2, h⟩).anchors.findSome? Anchor.href <;> simp
  · simp [scrapeStep, rowEntry, dif_neg h]

theorem foldl_scrapeStep (doc : HtmlDoc) :
    ∀ acc, doc.foldl scrapeStep acc = acc ++ doc.filterMap rowEntry := by
  induction doc with
  | nil => intro acc; simp
  | cons tds doc ih =>
    intro acc
    rw [List.foldl_cons, scrapeStep_eq, ih, List.filterMap_cons]
    cases rowEntry tds <;> simp

theorem rowEntry_eq_spec (tds : List Cell) :
    rowEntry tds = if rowQualifies tds = true then some (specEntryOf tds) else none := by
  by_cases h : 2 < tds.length
  · have h0 : 0 < tds.length := by omega
    have hget2 : tds.getD 2 emptyCell = tds.get ⟨2, h⟩ := by
      rw [List.getD_eq_getElem _ _ h, List.get_eq_getElem]
    have hget0 : tds.getD 0 emptyCell = tds.get ⟨0, h0⟩ := by
      rw [List.getD_eq_getElem _ _ h0, List.get_eq_getElem]
    rw [rowEntry, dif_pos h, rowQualifies, specEntryOf, hget2, hget0]
    rw [Cell.hyperlinkTargets, findSome?_eq_head?_filterMap]
    cases hl : (tds.get ⟨2, h⟩).anchors.filterMap Anchor.href with
    | nil => simp
    | cons u us => simp [h]
  · rw [rowEntry, dif_neg h, rowQualifies]
    simp [h]

/-- C1: for every parsed page, get_pdf_links produces exactly one entry
per tr with more than two td children whose third td contains a
hyperlink, pairing the text of the first cell with the target of the
first hyperlink of the third cell, skipping every other row, in document
order — the filter-and-map rendering of the contract. -/
theorem get_pdf_links_matches_extraction_contract (doc : HtmlDoc) :
    (get_pdf_links (FetchResult.ok doc)).2 = extractLinks_spec doc := by
  show doc.foldl scrapeStep [] = _
  rw [foldl_scrapeStep doc [], List.nil_append, extractLinks_spec]
  induction doc with
  | nil => rfl
  | cons tds doc ih =>
    rw [List.filterMap_cons, List.filter_cons, rowEntry_eq_spec]
    by_cases hq : rowQualifies tds = true
    · simp only [hq, if_true, List.map_cons]
      rw [ih]
    · simp only [hq, if_false, Bool.false_eq_true]
      rw [ih]

theorem rowEntry_cons3 (c0 c1 c2 : Cell) (rest : List Cell) :
    rowEntry (c0 :: c1 :: c2 :: rest)
      = (c2.anchors.findSome? Anchor.href).map (fun href => (c0.text, href)) := by
  have hlen : 2 < (c0 :: c1 :: c2 :: rest).length := by
    simp only [List.length_cons]
    omega
  rw [rowEntry, dif_pos hlen]
  rfl

/-- C10: in get_pdf_links only anchors carrying an href qualify: a third
cell whose anchors all lack the attribute contributes nothing, and when a
prefix of href-less anchors precedes one carrying href u the row yields
exactly the entry with url u — the search skips over the bare anchors
instead of halting. -/
theorem hrefless_anchors_skipped (c0 c1 c2 : Cell) (rest : List Cell) :
    ((∀ a ∈ c2.anchors, a.href = none) →
      (get_pdf_links (FetchResult.ok [c0 :: c1 :: c2 :: rest])).2 = []) ∧
    (∀ pre a u suf, c2.anchors = pre ++ a :: suf → (∀ b ∈ pre, b.href = none) →
      a.href = some u →
      (get_pdf_links (FetchResult.ok [c0 :: c1 :: c2 :: rest])).2 = [(c0.text, u)]) := by
  constructor
  · intro hnone
    show List.foldl scrapeStep [] [c0 :: c1 :: c2 :: rest] = []
    rw [List.foldl_cons, List.foldl_nil, scrapeStep_eq, rowEntry_cons3]
    rw [findSome?_all_none hnone]
    rfl
  · intro pre a u suf hdec hprenone ha
    show List.foldl scrapeStep [] [c0 :: c1 :: c2 :: rest] = [(c0.text, u)]
    rw [List.foldl_cons, List.foldl_nil, scrapeStep_eq, rowEntry_cons3, hdec]
    rw [findSome?_first_some pre a suf u hprenone ha]
    rfl

/-- Witness for C10: the first anchor lacks href and is skipped; the entry
carries the href of the second anchor. -/
theorem hrefless_anchors_skipped_witness :
    (get_pdf_links (FetchResult.ok
        [[⟨"Bulletin", []⟩, ⟨"d", []⟩,
          ⟨"z", [⟨none⟩, ⟨some (("u").toList)⟩]⟩]])).2
      = [("Bulletin", ("u").toList)] := by
  have h := hrefless_anchors_skipped ⟨"Bulletin", []⟩ ⟨"d", []⟩
    ⟨"z", [⟨none⟩, ⟨some (("u").toList)⟩]⟩ []
  exact h.2 [⟨none⟩] ⟨some (("u").toList)⟩ (("u").toList) [] rfl (by decide) rfl

end Chubut
